import Mathlib

/-!
Verification of the xEye camera-control client core: the settings patch
coalescer (src/web/src/lib/api.js), the optimistic settings handler and the
monitoring sweep loop (src/unnamed/part_004), and the nudge tick dispatchers
(src/unnamed/part_001, src/unnamed/part_003).  Each definition is a shallow
embedding of the corresponding JavaScript function; JS numbers are modelled
as rationals where only field arithmetic and comparisons occur, and as reals
where the code uses `Math.pow` / `Math.hypot`.
-/

namespace XEye

/-- Setting values as they occur in settings objects and patch bodies
(strings, booleans, numbers, and JSON null). -/
inductive Val where
  | str (s : String)
  | bool (b : Bool)
  | num (q : ℚ)
  | null
deriving DecidableEq

/-- A JS object holding settings, embedded as an association list in key
insertion order (JS objects have unique keys; insertion order is observable). -/
abbrev Patch := List (String × Val)

/-- Property read `p[key]` on a JS object. -/
def getKey : Patch → String → Option Val
  | [], _ => none
  | kv :: rest, key => if kv.1 = key then some kv.2 else getKey rest key

/-- `Object.prototype.hasOwnProperty.call(p, key)`. -/
def hasKey (p : Patch) (key : String) : Bool :=
  p.any (fun kv => kv.1 = key)

/-- In-place overwrite of an existing key. -/
def overwriteKey (p : Patch) (key : String) (v : Val) : Patch :=
  p.map (fun kv => if kv.1 = key then (key, v) else kv)

/-- Property write `p[key] = v` on a JS object: overwrite in place when the
key exists, otherwise append (JS key-insertion order). -/
def setKey (p : Patch) (key : String) (v : Val) : Patch :=
  if hasKey p key then overwriteKey p key v
  else p ++ [(key, v)]

/-- `delete p[key]`. -/
def removeKey (p : Patch) (key : String) : Patch :=
  p.filter (fun kv => kv.1 ≠ key)

/-- `Object.assign(target, src)` / `\x7b...target, ...src\x7d`: keys of `src`
written into `target` in order, last write winning. -/
def assignPatch (target src : Patch) : Patch :=
  src.foldl (fun acc kv => setKey acc kv.1 kv.2) target

/-- Merge of a sequence of partial updates, in application order, starting
from the empty accumulator (the `pendingPatch` of api.js). -/
def mergeAll (ps : List Patch) : Patch :=
  ps.foldl assignPatch []

/-- First-`some` choice used to state where a key ends up after merging. -/
def orDefault (o d : Option Val) : Option Val :=
  match o with
  | some v => some v
  | none => d

/-- The last value written for `key` among a list of raw writes, later
entries taking precedence: the reference meaning of last-write-wins. -/
def lastWritten (key : String) : List (String × Val) → Option Val
  | [] => none
  | kv :: rest =>
      orDefault (lastWritten key rest) (if kv.1 = key then some kv.2 else none)

theorem orDefault_none_right (o : Option Val) : orDefault o none = o := by
  cases o <;> rfl

theorem orDefault_some (v : Val) (d : Option Val) : orDefault (some v) d = some v := rfl

theorem orDefault_assoc (a b c : Option Val) :
    orDefault (orDefault a b) c = orDefault a (orDefault b c) := by
  cases a <;> cases b <;> rfl

theorem hasKey_cons (kv : String × Val) (rest : Patch) (key : String) :
    hasKey (kv :: rest) key = (kv.1 = key || hasKey rest key) := by
  simp [hasKey, List.any_cons]

theorem getKey_eq_none_of_not_hasKey (p : Patch) (key : String)
    (h : hasKey p key = false) : getKey p key = none := by
  induction p with
  | nil => rfl
  | cons kv rest ih =>
      rw [hasKey_cons] at h
      have hk : ¬ kv.1 = key := by
        intro hc
        simp [hc] at h
      have hrest : hasKey rest key = false := by
        simpa [hk] using h
      simp [getKey, hk, ih hrest]

theorem lastWritten_eq_none_of_not_hasKey (p : Patch) (key : String)
    (h : hasKey p key = false) : lastWritten key p = none := by
  induction p with
  | nil => rfl
  | cons kv rest ih =>
      rw [hasKey_cons] at h
      have hk : ¬ kv.1 = key := by
        intro hc
        simp [hc] at h
      have hrest : hasKey rest key = false := by
        simpa [hk] using h
      simp [lastWritten, hk, ih hrest, orDefault]

theorem getKey_overwriteKey_self (p : Patch) (key : String) (v : Val)
    (h : hasKey p key = true) : getKey (overwriteKey p key v) key = some v := by
  induction p with
  | nil => simp [hasKey] at h
  | cons kv rest ih =>
      rw [hasKey_cons] at h
      by_cases hk : kv.1 = key
      · simp [overwriteKey, getKey, hk]
      · have hrest : hasKey rest key = true := by simpa [hk] using h
        simpa [overwriteKey, getKey, hk] using ih hrest

theorem getKey_overwriteKey_ne (p : Patch) (key k : String) (v : Val)
    (h : k ≠ key) : getKey (overwriteKey p key v) k = getKey p k := by
  induction p with
  | nil => rfl
  | cons kv rest ih =>
      by_cases hk : kv.1 = key
      · simp [overwriteKey, getKey, hk, Ne.symm h] at ih ⊢
        exact ih
      · simp only [overwriteKey, List.map_cons, if_neg hk, getKey] at ih ⊢
        rw [ih]

theorem getKey_append_single_self (p : Patch) (key : String) (v : Val)
    (h : hasKey p key = false) : getKey (p ++ [(key, v)]) key = some v := by
  induction p with
  | nil => simp [getKey]
  | cons kv rest ih =>
      rw [hasKey_cons] at h
      have hk : ¬ kv.1 = key := by
        intro hc
        simp [hc] at h
      have hrest : hasKey rest key = false := by simpa [hk] using h
      simp [getKey, hk, ih hrest]

theorem getKey_append_single_ne (p : Patch) (key k : String) (v : Val)
    (h : k ≠ key) : getKey (p ++ [(key, v)]) k = getKey p k := by
  induction p with
  | nil => simp [getKey, Ne.symm h]
  | cons kv rest ih => simp [getKey, ih]

theorem getKey_setKey_self (p : Patch) (key : String) (v : Val) :
    getKey (setKey p key v) key = some v := by
  unfold setKey
  by_cases h : hasKey p key = true
  · rw [if_pos h]
    exact getKey_overwriteKey_self p key v h
  · rw [if_neg h]
    exact getKey_append_single_self p key v (by simpa using h)

theorem getKey_setKey_ne (p : Patch) (key k : String) (v : Val) (h : k ≠ key) :
    getKey (setKey p key v) k = getKey p k := by
  unfold setKey
  by_cases hh : hasKey p key = true
  · rw [if_pos hh]
    exact getKey_overwriteKey_ne p key k v h
  · rw [if_neg hh]
    exact getKey_append_single_ne p key k v h

theorem lastWritten_append (k : String) (l₁ l₂ : List (String × Val)) :
    lastWritten k (l₁ ++ l₂) =
      orDefault (lastWritten k l₂) (lastWritten k l₁) := by
  induction l₁ with
  | nil => simp [lastWritten, orDefault_none_right]
  | cons kv rest ih =>
      simp only [List.cons_append, lastWritten, List.append_eq, ih, orDefault_assoc]

theorem lastWritten_overwriteKey_none (p : Patch) (key : String) (v : Val)
    (h : hasKey p key = false) :
    lastWritten key (overwriteKey p key v) = none := by
  induction p with
  | nil => rfl
  | cons kv rest ih =>
      rw [hasKey_cons] at h
      have hk : ¬ kv.1 = key := by
        intro hc
        simp [hc] at h
      have hrest : hasKey rest key = false := by simpa [hk] using h
      simp only [overwriteKey, List.map_cons, if_neg hk, lastWritten] at ih ⊢
      simp [ih hrest, hk, orDefault]

theorem lastWritten_overwriteKey_self (p : Patch) (key : String) (v : Val)
    (h : hasKey p key = true) :
    lastWritten key (overwriteKey p key v) = some v := by
  induction p with
  | nil => simp [hasKey] at h
  | cons kv rest ih =>
      rw [hasKey_cons] at h
      by_cases hk : kv.1 = key
      · by_cases hrest : hasKey rest key = true
        · have := ih hrest
          simp only [overwriteKey, List.map_cons, if_pos hk, lastWritten] at this ⊢
          simp [this, orDefault]
        · have hnone := lastWritten_overwriteKey_none rest key v (by simpa using hrest)
          simp only [overwriteKey, List.map_cons, if_pos hk, lastWritten] at hnone ⊢
          simp [hnone, orDefault]
      · have hrest : hasKey rest key = true := by simpa [hk] using h
        have := ih hrest
        simp only [overwriteKey, List.map_cons, if_neg hk, lastWritten] at this ⊢
        simp [this, orDefault]

theorem lastWritten_overwriteKey_ne (p : Patch) (key k : String) (v : Val)
    (h : k ≠ key) :
    lastWritten k (overwriteKey p key v) = lastWritten k p := by
  induction p with
  | nil => rfl
  | cons kv rest ih =>
      by_cases hk : kv.1 = key
      · simp only [overwriteKey, List.map_cons, if_pos hk, lastWritten] at ih ⊢
        rw [ih]
        simp [Ne.symm h, hk]
      · simp only [overwriteKey, List.map_cons, if_neg hk, lastWritten] at ih ⊢
        rw [ih]

theorem lastWritten_setKey_self (p : Patch) (key : String) (v : Val) :
    lastWritten key (setKey p key v) = some v := by
  unfold setKey
  by_cases h : hasKey p key = true
  · rw [if_pos h]
    exact lastWritten_overwriteKey_self p key v h
  · rw [if_neg h]
    rw [lastWritten_append]
    simp [lastWritten, orDefault]

theorem lastWritten_setKey_ne (p : Patch) (key k : String) (v : Val) (h : k ≠ key) :
    lastWritten k (setKey p key v) = lastWritten k p := by
  unfold setKey
  by_cases hh : hasKey p key = true
  · rw [if_pos hh]
    exact lastWritten_overwriteKey_ne p key k v h
  · rw [if_neg hh]
    rw [lastWritten_append]
    simp [lastWritten, Ne.symm h, orDefault]

theorem lastWritten_removeKey_self (p : Patch) (key : String) :
    lastWritten key (removeKey p key) = none := by
  induction p with
  | nil => rfl
  | cons kv rest ih =>
      rw [removeKey, List.filter_cons]
      rw [removeKey] at ih
      simp only [decide_not] at ih
      by_cases hk : kv.1 = key
      · simpa [hk] using ih
      · simp [hk, lastWritten, ih, orDefault]

theorem lastWritten_removeKey_ne (p : Patch) (key k : String) (h : k ≠ key) :
    lastWritten k (removeKey p key) = lastWritten k p := by
  induction p with
  | nil => rfl
  | cons kv rest ih =>
      rw [removeKey, List.filter_cons]
      rw [removeKey] at ih
      simp only [decide_not] at ih
      by_cases hk : kv.1 = key
      · simp [hk, lastWritten, ih, Ne.symm h, orDefault_none_right]
      · simp [hk, lastWritten, ih]

theorem getKey_foldl_setKey (es : List (String × Val)) (init : Patch) (k : String) :
    getKey (es.foldl (fun acc kv => setKey acc kv.1 kv.2) init) k =
      orDefault (lastWritten k es) (getKey init k) := by
  induction es generalizing init with
  | nil => rfl
  | cons kv rest ih =>
      simp only [List.foldl_cons, lastWritten]
      rw [ih]
      by_cases hk : kv.1 = k
      · subst hk
        rw [getKey_setKey_self]
        rw [orDefault_assoc]
        simp [orDefault_some]
      · rw [getKey_setKey_ne _ _ _ _ (by exact fun hc => hk hc.symm)]
        simp [hk, orDefault_none_right]

theorem getKey_assignPatch (a b : Patch) (k : String) :
    getKey (assignPatch a b) k = orDefault (lastWritten k b) (getKey a k) :=
  getKey_foldl_setKey b a k

theorem foldl_flatten_eq {α β : Type} (f : β → α → β) :
    ∀ (L : List (List α)) (init : β),
      L.flatten.foldl f init = L.foldl (fun acc l => l.foldl f acc) init := by
  intro L
  induction L with
  | nil => intro init; rfl
  | cons l rest ih =>
      intro init
      simp only [List.flatten_cons, List.foldl_cons, List.foldl_append]
      exact ih (l.foldl f init)

/-- A key read out of the merged accumulator is exactly the last write of
that key across all partial updates, in application order. -/
theorem getKey_mergeAll (ps : List Patch) (k : String) :
    getKey (mergeAll ps) k = lastWritten k ps.flatten := by
  have h1 : mergeAll ps =
      ps.flatten.foldl (fun acc kv => setKey acc kv.1 kv.2) [] := by
    unfold mergeAll
    rw [foldl_flatten_eq]
    rfl
  rw [h1, getKey_foldl_setKey]
  simp [getKey, orDefault_none_right]

/-! ## Settings patch coalescer (src/web/src/lib/api.js, lines 18-82) -/

/-- An outbound request of the coalescer: either the GET issued by
`getCameraSettings` or the PATCH issued by `sendCameraPatch`. -/
inductive Request where
  | getSettings
  | patchSettings (body : Patch)
deriving DecidableEq

/-- The request dispatched by `sendCameraPatch` (api.js lines 23-33): an
empty payload falls back to `getCameraSettings`, otherwise one PATCH with
the payload as body. -/
def sendCameraPatch (payload : Patch) : Request :=
  if payload = [] then Request.getSettings else Request.patchSettings payload

/-- Module-level mutable state of api.js: `pendingPatch`, the number of
queued `patchWaiters`, whether `patchTimer` is armed, plus the log of
outbound requests actually dispatched. -/
structure CoalescerState where
  pendingPatch : Patch
  patchWaiters : Nat
  timerSet : Bool
  requests : List Request
deriving DecidableEq

def coalescerInit : CoalescerState := ⟨[], 0, false, []⟩

/-- One debounced call of `patchCameraSettings(partialSettings)` (api.js
lines 74-82): `Object.assign(pendingPatch, partialSettings)`, push a waiter,
and (re)arm the 200 ms timer via `schedulePatchFlush(false)`. -/
def patchCameraSettings (st : CoalescerState) (upd : Patch) : CoalescerState :=
  { st with
    pendingPatch := assignPatch st.pendingPatch upd
    patchWaiters := st.patchWaiters + 1
    timerSet := true }

/-- The 200 ms timer firing (api.js lines 68-71) followed by the chained
`flushPendingPatch` (lines 35-49): the accumulator and waiter list are taken
atomically; with no waiters the flush returns before any request; otherwise
exactly one request (`sendCameraPatch` of the taken payload) goes out. -/
def fireTimer (st : CoalescerState) : CoalescerState :=
  if st.timerSet then
    if st.patchWaiters = 0 then
      { st with pendingPatch := [], timerSet := false }
    else
      { pendingPatch := []
        patchWaiters := 0
        timerSet := false
        requests := st.requests ++ [sendCameraPatch st.pendingPatch] }
  else st

instance decEqExcept : DecidableEq (Except String Patch) := fun a b =>
  match a, b with
  | .ok x, .ok y =>
      if h : x = y then isTrue (by rw [h]) else isFalse (by simp [h])
  | .error x, .error y =>
      if h : x = y then isTrue (by rw [h]) else isFalse (by simp [h])
  | .ok _, .error _ => isFalse (by simp)
  | .error _, .ok _ => isFalse (by simp)

/-- Result of one run of `flushPendingPatch` (api.js lines 35-49): the
requests it dispatches and the result delivered to each taken waiter.
`getResult` is what `getCameraSettings` would return, `patchResult` what the
PATCH of a given body would return. -/
structure FlushRun where
  requests : List Request
  outcomes : List (Except String Patch)
deriving DecidableEq

def flushPendingPatch (pending : Patch) (waiters : Nat)
    (getResult : Except String Patch)
    (patchResult : Patch → Except String Patch) : FlushRun :=
  if waiters = 0 then ⟨[], []⟩
  else
    let result := if pending = [] then getResult else patchResult pending
    ⟨[sendCameraPatch pending], List.replicate waiters result⟩

/-! ## App-layer settings handler (src/unnamed/part_004, lines 98-129) -/

/-- The `wb_preset` expansion performed on the optimistic overlay by
`handleSettingsChange` (part_004 lines 100-113): copy the partial update,
expand a non-null `wb_preset` into `awb_mode` / `low_light` / `awb_enable`,
then delete the `wb_preset` key. -/
def expandWbPreset (upd : Patch) : Patch :=
  if hasKey upd "wb_preset" then
    let o := upd
    let o :=
      match getKey upd "wb_preset" with
      | some preset =>
          if preset ≠ Val.null then
            let o := setKey o "awb_mode" preset
            if preset = Val.str "low_light" then
              setKey (setKey o "low_light" (Val.bool true)) "awb_enable" (Val.bool true)
            else
              setKey o "low_light" (Val.bool false)
          else o
      | none => o
    removeKey o "wb_preset"
  else upd

/-- The synchronous part of `handleSettingsChange(partial)` (part_004 lines
98-115): the new optimistic display state (previous settings spread with the
expanded overlay) and the payload passed to `patchCameraSettings` (the
original partial update, unexpanded). -/
def handleSettingsChange (display : Patch) (upd : Patch) : Patch × Patch :=
  (assignPatch display (expandWbPreset upd), upd)

/-- App view state touched by the failure path of `handleSettingsChange`. -/
structure AppSettingsState where
  settings : Option Patch
  lastKnownSettings : Option Patch
  toast : Option String
deriving DecidableEq

/-- The rejection handler of `handleSettingsChange` (part_004 lines 99 and
121-128): `snapshotBefore` is the copy of `lastKnownSettings` taken at call
time; on failure the displayed settings and the last-known snapshot are
rolled back to it (when present) and a toast with the error message is
shown. -/
def handleSettingsChangeFailure (st : AppSettingsState) (errMsg : String) :
    AppSettingsState :=
  let snapshotBefore := st.lastKnownSettings
  match snapshotBefore with
  | some snap =>
      { settings := some snap, lastKnownSettings := some snap, toast := some errMsg }
  | none => { st with toast := some errMsg }

theorem hasKey_of_getKey (p : Patch) (k : String) (v : Val)
    (h : getKey p k = some v) : hasKey p k = true := by
  induction p with
  | nil => simp [getKey] at h
  | cons kv rest ih =>
      rw [hasKey_cons]
      by_cases hk : kv.1 = k
      · simp [hk]
      · rw [getKey] at h
        rw [if_neg hk] at h
        simp [hk, ih h]

theorem foldl_patchCameraSettings_spec :
    ∀ (ps : List Patch) (st : CoalescerState),
      (ps.foldl patchCameraSettings st).pendingPatch
          = ps.foldl assignPatch st.pendingPatch
      ∧ (ps.foldl patchCameraSettings st).patchWaiters
          = st.patchWaiters + ps.length
      ∧ (ps.foldl patchCameraSettings st).timerSet
          = (st.timerSet || !ps.isEmpty)
      ∧ (ps.foldl patchCameraSettings st).requests = st.requests := by
  intro ps
  induction ps with
  | nil =>
      intro st
      refine ⟨rfl, rfl, ?_, rfl⟩
      simp
  | cons p rest ih =>
      intro st
      have h := ih (patchCameraSettings st p)
      refine ⟨?_, ?_, ?_, ?_⟩
      · simpa [patchCameraSettings] using h.1
      · rw [List.foldl_cons, h.2.1]
        simp only [patchCameraSettings, List.length_cons]
        omega
      · rw [List.foldl_cons, h.2.2.1]
        simp [patchCameraSettings]
      · rw [List.foldl_cons, h.2.2.2]
        rfl

/-- Claim C3: any nonempty burst of debounced `patchCameraSettings` calls
inside one 200 ms trailing window issues no request while accumulating, and
the single timer fire that ends the window dispatches exactly one PATCH
whose body is the `Object.assign` merge of all the partial updates, a key
reading as the last value written for it across the burst. -/
theorem coalescer_single_merged_patch (ps : List Patch)
    (hne : ps ≠ []) (hmerged : mergeAll ps ≠ []) :
    (ps.foldl patchCameraSettings coalescerInit).requests = [] ∧
    (fireTimer (ps.foldl patchCameraSettings coalescerInit)).requests
      = [Request.patchSettings (mergeAll ps)] ∧
    (∀ k, getKey (mergeAll ps) k = lastWritten k ps.flatten) := by
  have h := foldl_patchCameraSettings_spec ps coalescerInit
  have hpend : (ps.foldl patchCameraSettings coalescerInit).pendingPatch
      = mergeAll ps := h.1
  have hw : (ps.foldl patchCameraSettings coalescerInit).patchWaiters
      = ps.length := by
    rw [h.2.1]
    simp [coalescerInit]
  have ht : (ps.foldl patchCameraSettings coalescerInit).timerSet = true := by
    rw [h.2.2.1]
    cases ps with
    | nil => exact absurd rfl hne
    | cons a l => rfl
  refine ⟨h.2.2.2, ?_, fun k => getKey_mergeAll ps k⟩
  unfold fireTimer
  rw [ht, if_pos rfl, hw]
  rw [if_neg (by simpa [List.length_eq_zero] using hne)]
  rw [hpend, h.2.2.2]
  simp only [coalescerInit, List.nil_append]
  unfold sendCameraPatch
  rw [if_neg hmerged]

theorem coalescer_single_merged_patch_witness :
    ([[("brightness", Val.num 1)], [("contrast", Val.num 2)],
      [("brightness", Val.num 3)]] : List Patch) ≠ [] ∧
    (fireTimer (([[("brightness", Val.num 1)], [("contrast", Val.num 2)],
        [("brightness", Val.num 3)]] : List Patch).foldl
        patchCameraSettings coalescerInit)).requests
      = [Request.patchSettings (mergeAll
          [[("brightness", Val.num 1)], [("contrast", Val.num 2)],
           [("brightness", Val.num 3)]])] :=
  ⟨by decide,
   (coalescer_single_merged_patch
      [[("brightness", Val.num 1)], [("contrast", Val.num 2)],
       [("brightness", Val.num 3)]] (by decide) (by decide)).2.1⟩

/-- Claim C10 (counterexample): a flush dispatched with an empty accumulated
patch and no registered waiters returns before sending anything, so the GET
fallback the claim promises does not happen on every empty-patch flush. -/
theorem flush_empty_no_waiters_sends_nothing :
    Request.getSettings ∉
      (flushPendingPatch [] 0 (Except.ok []) (fun _ => Except.ok [])).requests := by
  decide

/-- Claim C10 (amended): for every flush whose accumulated pending patch is
empty at dispatch time and which has at least one caller awaiting it, no
PATCH is sent; instead a single GET fetches the current settings and every
awaiting caller is resolved with the fetched settings object. -/
theorem flush_empty_patch_resolves_with_get (pending : Patch) (waiters : Nat)
    (s : Patch) (patchResult : Patch → Except String Patch)
    (hw : waiters ≠ 0) (hp : pending = []) :
    (flushPendingPatch pending waiters (Except.ok s) patchResult).requests
      = [Request.getSettings] ∧
    (flushPendingPatch pending waiters (Except.ok s) patchResult).outcomes
      = List.replicate waiters (Except.ok s) := by
  subst hp
  unfold flushPendingPatch
  rw [if_neg hw]
  simp [sendCameraPatch]

theorem flush_empty_patch_resolves_with_get_witness :
    (2 : Nat) ≠ 0 ∧
    (flushPendingPatch [] 2 (Except.ok [("zoom", Val.num 1)])
        (fun _ => Except.error "unused")).outcomes
      = List.replicate 2 (Except.ok [("zoom", Val.num 1)]) :=
  ⟨by decide,
   (flush_empty_patch_resolves_with_get [] 2 [("zoom", Val.num 1)]
      (fun _ => Except.error "unused") (by decide) rfl).2⟩

/-- Claim C9: when the remote call of a settings flush fails, every caller
awaiting that flush is rejected with that same error, and the application
failure handler rolls the displayed settings and the last-known snapshot
back to the pre-patch server-confirmed snapshot while showing a toast with
the failure message. -/
theorem flush_failure_rejects_all_and_rolls_back
    (pending : Patch) (waiters : Nat) (getResult : Except String Patch)
    (patchResult : Patch → Except String Patch) (e : String)
    (hw : waiters ≠ 0)
    (herr : (if pending = [] then getResult else patchResult pending)
      = Except.error e)
    (st : AppSettingsState) (snap : Patch)
    (hsnap : st.lastKnownSettings = some snap) :
    (flushPendingPatch pending waiters getResult patchResult).outcomes
      = List.replicate waiters (Except.error e) ∧
    handleSettingsChangeFailure st e
      = ⟨some snap, some snap, some e⟩ := by
  constructor
  · unfold flushPendingPatch
    rw [if_neg hw]
    simp only [herr]
  · unfold handleSettingsChangeFailure
    rw [hsnap]

theorem flush_failure_rejects_all_and_rolls_back_witness :
    (2 : Nat) ≠ 0 ∧
    (flushPendingPatch [("zoom", Val.num 2)] 2 (Except.ok [])
        (fun _ => Except.error "boom")).outcomes
      = List.replicate 2 (Except.error "boom") ∧
    handleSettingsChangeFailure
        ⟨some [("zoom", Val.num 2)], some [("zoom", Val.num 1)], none⟩ "boom"
      = ⟨some [("zoom", Val.num 1)], some [("zoom", Val.num 1)], some "boom"⟩ := by
  refine ⟨by decide, ?_, ?_⟩
  · exact (flush_failure_rejects_all_and_rolls_back [("zoom", Val.num 2)] 2
      (Except.ok []) (fun _ => Except.error "boom") "boom" (by decide)
      (by decide) ⟨some [("zoom", Val.num 2)], some [("zoom", Val.num 1)], none⟩
      [("zoom", Val.num 1)] rfl).1
  · exact (flush_failure_rejects_all_and_rolls_back [("zoom", Val.num 2)] 2
      (Except.ok []) (fun _ => Except.error "boom") "boom" (by decide)
      (by decide) ⟨some [("zoom", Val.num 2)], some [("zoom", Val.num 1)], none⟩
      [("zoom", Val.num 1)] rfl).2

/-- Claim C8: a partial update carrying `wb_preset = "low_light"` updates
the optimistic display state with `awb_mode = "low_light"`,
`low_light = true`, `awb_enable = true` and no `wb_preset` key, while the
outbound payload still carries the original `wb_preset` key unexpanded. -/
theorem wb_preset_low_light_expansion (display upd : Patch)
    (hupd : getKey upd "wb_preset" = some (Val.str "low_light"))
    (hdisp : getKey display "wb_preset" = none) :
    getKey (handleSettingsChange display upd).1 "awb_mode"
      = some (Val.str "low_light") ∧
    getKey (handleSettingsChange display upd).1 "low_light"
      = some (Val.bool true) ∧
    getKey (handleSettingsChange display upd).1 "awb_enable"
      = some (Val.bool true) ∧
    getKey (handleSettingsChange display upd).1 "wb_preset" = none ∧
    (handleSettingsChange display upd).2 = upd := by
  have hhas : hasKey upd "wb_preset" = true :=
    hasKey_of_getKey upd "wb_preset" (Val.str "low_light") hupd
  have hexp : expandWbPreset upd
      = removeKey (setKey (setKey (setKey upd "awb_mode" (Val.str "low_light"))
          "low_light" (Val.bool true)) "awb_enable" (Val.bool true))
          "wb_preset" := by
    unfold expandWbPreset
    rw [if_pos hhas, hupd]
    simp
  have hfst : (handleSettingsChange display upd).1
      = assignPatch display (expandWbPreset upd) := rfl
  refine ⟨?_, ?_, ?_, ?_, rfl⟩
  · rw [hfst, getKey_assignPatch, hexp]
    rw [lastWritten_removeKey_ne _ _ _ (by decide)]
    rw [lastWritten_setKey_ne _ _ _ _ (by decide)]
    rw [lastWritten_setKey_ne _ _ _ _ (by decide)]
    rw [lastWritten_setKey_self]
    rfl
  · rw [hfst, getKey_assignPatch, hexp]
    rw [lastWritten_removeKey_ne _ _ _ (by decide)]
    rw [lastWritten_setKey_ne _ _ _ _ (by decide)]
    rw [lastWritten_setKey_self]
    rfl
  · rw [hfst, getKey_assignPatch, hexp]
    rw [lastWritten_removeKey_ne _ _ _ (by decide)]
    rw [lastWritten_setKey_self]
    rfl
  · rw [hfst, getKey_assignPatch, hexp]
    rw [lastWritten_removeKey_self]
    rw [hdisp]
    rfl

theorem wb_preset_low_light_expansion_witness :
    getKey ([("wb_preset", Val.str "low_light")] : Patch) "wb_preset"
      = some (Val.str "low_light") ∧
    getKey (handleSettingsChange [("awb_mode", Val.str "auto")]
        [("wb_preset", Val.str "low_light")]).1 "wb_preset" = none :=
  ⟨by decide,
   (wb_preset_low_light_expansion [("awb_mode", Val.str "auto")]
      [("wb_preset", Val.str "low_light")] (by decide) (by decide)).2.2.2.1⟩

/-! ## Flush chaining (src/web/src/lib/api.js, lines 51-72)

`schedulePatchFlush` appends every flush onto the module-level promise
`flushChain` via `flushChain = flushChain.then(() => flushPendingPatch())`,
with a `.catch` keeping the chain alive after a rejection.  The trace model
below embeds exactly the guarantee promise chaining gives: a queued flush may
begin (and dispatch its outbound request) only when every previously started
flush has settled, i.e. its remote call has resolved or rejected.  A flush
that finds no waiters settles without dispatching a request
(`flushPendingPatch` lines 39-41). -/

/-- Observable events of the flush chain: the outbound request of flush `i`
being sent, and the settlement (resolution or rejection) of flush `i`. -/
inductive ChainEv where
  | send (i : Nat)
  | settle (i : Nat)
deriving DecidableEq

/-- State of the `flushChain` executor: flushes queued behind the chain,
the id counter, which flushes have started and settled, and the event log. -/
structure ChainState where
  queued : List Nat
  nextId : Nat
  started : List Nat
  settled : List Nat
  log : List ChainEv
deriving DecidableEq

def chainInit : ChainState := ⟨[], 0, [], [], []⟩

/-- Flushes that have started but not settled. -/
def inflight (s : ChainState) : List Nat :=
  s.started.filter (fun i => !s.settled.contains i)

/-- One transition of the flush-chain executor.  `trigger` is
`schedulePatchFlush`'s `flushChain = flushChain.then(...)`; `start` begins
the next chained flush (allowed only when no earlier flush is in flight, the
semantics of `.then`) and dispatches its request; `settleRun` is the remote
call of a started flush resolving or rejecting; `startNoWaiters` is a
chained flush that finds no waiters and settles immediately without
dispatching a request. -/
inductive ChainStep : ChainState → ChainState → Prop where
  | trigger (s : ChainState) :
      ChainStep s { s with queued := s.queued ++ [s.nextId], nextId := s.nextId + 1 }
  | start (s : ChainState) (i : Nat) (rest : List Nat)
      (hq : s.queued = i :: rest) (hfree : inflight s = []) :
      ChainStep s { s with queued := rest, started := s.started ++ [i],
                           log := s.log ++ [ChainEv.send i] }
  | settleRun (s : ChainState) (i : Nat)
      (hi : i ∈ s.started) (hns : i ∉ s.settled) :
      ChainStep s { s with settled := s.settled ++ [i],
                           log := s.log ++ [ChainEv.settle i] }
  | startNoWaiters (s : ChainState) (i : Nat) (rest : List Nat)
      (hq : s.queued = i :: rest) (hfree : inflight s = []) :
      ChainStep s { s with queued := rest, started := s.started ++ [i],
                           settled := s.settled ++ [i],
                           log := s.log ++ [ChainEv.settle i] }

/-- States reachable from the initial chain state. -/
inductive ChainReachable : ChainState → Prop where
  | init : ChainReachable chainInit
  | step {s t : ChainState} :
      ChainReachable s → ChainStep s t → ChainReachable t

/-- Flushes never overlap in a log: whenever a send occurs, every earlier
sent flush has already settled earlier in the log. -/
def NoOverlap (log : List ChainEv) : Prop :=
  ∀ n i j, log.get? n = some (ChainEv.send j) →
    ChainEv.send i ∈ log.take n → ChainEv.settle i ∈ log.take n

/-- Auxiliary invariant carried through the reachability induction. -/
structure ChainInv (s : ChainState) : Prop where
  no_overlap : NoOverlap s.log
  send_mem_started : ∀ i, ChainEv.send i ∈ s.log → i ∈ s.started
  settled_mem_log : ∀ i, i ∈ s.settled → ChainEv.settle i ∈ s.log

theorem chainInv_init : ChainInv chainInit := by
  refine ⟨?_, ?_, ?_⟩
  · intro n i j hg _
    simp [chainInit, List.get?] at hg
  · intro i hi
    simp [chainInit] at hi
  · intro i hi
    simp [chainInit] at hi

theorem mem_settled_of_inflight_nil (s : ChainState) (hfree : inflight s = [])
    (i : Nat) (hi : i ∈ s.started) : i ∈ s.settled := by
  by_contra hc
  have : i ∈ inflight s := by
    unfold inflight
    rw [List.mem_filter]
    refine ⟨hi, ?_⟩
    simp [hc]
  rw [hfree] at this
  simp at this

theorem take_append_left {α : Type} (l₁ l₂ : List α) (n : Nat)
    (h : n ≤ l₁.length) : (l₁ ++ l₂).take n = l₁.take n := by
  rw [List.take_append_eq_append_take]
  have h0 : n - l₁.length = 0 := by omega
  rw [h0]
  simp

theorem noOverlap_append_settle (log : List ChainEv) (i : Nat)
    (h : NoOverlap log) : NoOverlap (log ++ [ChainEv.settle i]) := by
  intro n a b hg hmem
  rcases lt_trichotomy n log.length with hlt | heq | hgt
  · rw [List.get?_append hlt] at hg
    rw [take_append_left _ _ _ (le_of_lt hlt)] at hmem ⊢
    exact h n a b hg hmem
  · subst heq
    rw [List.get?_concat_length] at hg
    simp at hg
  · have hnone : (log ++ [ChainEv.settle i]).get? n = none := by
      rw [List.get?_eq_none]
      simp only [List.length_append, List.length_singleton]
      omega
    rw [hnone] at hg
    cases hg

theorem noOverlap_append_send (log : List ChainEv) (j : Nat)
    (h : NoOverlap log)
    (hall : ∀ i, ChainEv.send i ∈ log → ChainEv.settle i ∈ log) :
    NoOverlap (log ++ [ChainEv.send j]) := by
  intro n a b hg hmem
  rcases lt_trichotomy n log.length with hlt | heq | hgt
  · rw [List.get?_append hlt] at hg
    rw [take_append_left _ _ _ (le_of_lt hlt)] at hmem ⊢
    exact h n a b hg hmem
  · subst heq
    rw [take_append_left _ _ _ (le_refl _)] at hmem ⊢
    rw [List.take_length] at hmem ⊢
    exact hall a hmem
  · have hnone : (log ++ [ChainEv.send j]).get? n = none := by
      rw [List.get?_eq_none]
      simp only [List.length_append, List.length_singleton]
      omega
    rw [hnone] at hg
    cases hg

theorem chainInv_step {s t : ChainState} (hinv : ChainInv s)
    (hstep : ChainStep s t) : ChainInv t := by
  cases hstep with
  | trigger =>
      exact ⟨hinv.no_overlap, hinv.send_mem_started, hinv.settled_mem_log⟩
  | start i rest hq hfree =>
      refine ⟨?_, ?_, ?_⟩
      · refine noOverlap_append_send s.log i hinv.no_overlap ?_
        intro a ha
        exact hinv.settled_mem_log a
          (mem_settled_of_inflight_nil s hfree a (hinv.send_mem_started a ha))
      · intro a ha
        rcases List.mem_append.1 ha with hl | hr
        · exact List.mem_append_left _ (hinv.send_mem_started a hl)
        · simp only [List.mem_singleton] at hr
          have : a = i := by
            cases hr
            rfl
          subst this
          exact List.mem_append_right _ (by simp)
      · intro a ha
        exact List.mem_append_left _ (hinv.settled_mem_log a ha)
  | settleRun i hi hns =>
      refine ⟨noOverlap_append_settle s.log i hinv.no_overlap, ?_, ?_⟩
      · intro a ha
        rcases List.mem_append.1 ha with hl | hr
        · exact hinv.send_mem_started a hl
        · simp only [List.mem_singleton] at hr
          cases hr
      · intro a ha
        rcases List.mem_append.1 ha with hl | hr
        · exact List.mem_append_left _ (hinv.settled_mem_log a hl)
        · simp only [List.mem_singleton] at hr
          subst hr
          exact List.mem_append_right _ (by simp)
  | startNoWaiters i rest hq hfree =>
      refine ⟨noOverlap_append_settle s.log i hinv.no_overlap, ?_, ?_⟩
      · intro a ha
        rcases List.mem_append.1 ha with hl | hr
        · exact List.mem_append_left _ (hinv.send_mem_started a hl)
        · simp only [List.mem_singleton] at hr
          cases hr
      · intro a ha
        rcases List.mem_append.1 ha with hl | hr
        · exact List.mem_append_left _ (hinv.settled_mem_log a hl)
        · simp only [List.mem_singleton] at hr
          subst hr
          exact List.mem_append_right _ (by simp)

theorem chainInv_reachable (s : ChainState) (h : ChainReachable s) :
    ChainInv s := by
  induction h with
  | init => exact chainInv_init
  | step _ hstep ih => exact chainInv_step ih hstep

/-- Claim C2: in every reachable trace of the flush chain, flush operations
never overlap: whenever a flush's outbound request is sent, every flush whose
request was sent earlier has already settled (resolved or rejected) earlier
in the trace; in particular flush N+1's request is not sent before flush N's
remote call has resolved or rejected. -/
theorem flushes_never_overlap (s : ChainState) (h : ChainReachable s) :
    NoOverlap s.log :=
  (chainInv_reachable s h).no_overlap

theorem flushes_never_overlap_witness :
    ChainEv.settle 0 ∈
      ([ChainEv.send 0, ChainEv.settle 0, ChainEv.send 1].take 2) := by
  have h0 : ChainReachable chainInit := ChainReachable.init
  have h1 := h0.step (ChainStep.trigger chainInit)
  have h2 := h1.step (ChainStep.start _ 0 [] rfl rfl)
  have h3 := h2.step (ChainStep.settleRun _ 0 (by decide) (by decide))
  have h4 := h3.step (ChainStep.trigger _)
  have h5 := h4.step (ChainStep.start _ 1 [] rfl rfl)
  exact (flushes_never_overlap _ h5) 2 0 1 rfl (by decide)

/-! ## Nudge tick dispatchers (src/unnamed/part_001 lines 31-46 and
src/unnamed/part_003 lines 14-29) -/

def INTERVAL_MS : ℝ := 120

def MAX_SPEED : ℝ := 30

def EXPONENT : ℝ := 1.6

def NUDGE_DEG : ℝ := 0.5

/-- `Math.min(1, Math.hypot(x, y))`, the clamped input-vector magnitude used
by both tick loops. -/
noncomputable def magnitude (x y : ℝ) : ℝ :=
  min 1 (Real.sqrt (x ^ 2 + y ^ 2))

/-- `gain` of the VideoPanel drag tick (part_001 line 38):
`Math.pow(magnitude, EXPONENT) * (INTERVAL_MS / 1000)`. -/
noncomputable def gain (x y : ℝ) : ℝ :=
  magnitude x y ^ EXPONENT * (INTERVAL_MS / 1000)

/-- `dpan` of the VideoPanel drag tick (part_001 line 39). -/
noncomputable def dpan (x y : ℝ) : ℝ :=
  Real.sign x * |x| * MAX_SPEED * gain x y

/-- `dtilt` of the VideoPanel drag tick (part_001 line 40). -/
noncomputable def dtilt (x y : ℝ) : ℝ :=
  -Real.sign y * |y| * MAX_SPEED * gain x y

open Classical in
/-- The relative-move requests issued by one VideoPanel drag tick
(part_001 lines 35-44): skipped only when both stored components are
exactly zero, otherwise one `onRelativeMove` dispatch. -/
noncomputable def videoPanelTick (x y : ℝ) : List (ℝ × ℝ) :=
  if x = 0 ∧ y = 0 then []
  else [(dpan x y, dtilt x y)]

open Classical in
/-- The `ptzNudge` requests issued by one Joystick tick (part_003 lines
18-27): a no-op below the 0.1 deadzone, otherwise `Math.ceil(mag * 2)`
nudges of `(x * NUDGE_DEG, -y * NUDGE_DEG)`. -/
noncomputable def joystickTick (x y : ℝ) : List (ℝ × ℝ) :=
  if magnitude x y < 0.1 then []
  else List.replicate ⌈magnitude x y * 2⌉₊ (x * NUDGE_DEG, (-y) * NUDGE_DEG)

theorem magnitude_nonneg (x y : ℝ) : 0 ≤ magnitude x y :=
  le_min (by norm_num) (Real.sqrt_nonneg _)

theorem magnitude_le_one (x y : ℝ) : magnitude x y ≤ 1 :=
  min_le_left _ _

theorem magnitude_axis (m : ℝ) (h0 : 0 ≤ m) (h1 : m ≤ 1) :
    magnitude m 0 = m := by
  unfold magnitude
  rw [show m ^ 2 + 0 ^ 2 = m ^ 2 by ring, Real.sqrt_sq h0]
  exact min_eq_right h1

theorem real_sign_mul_abs (x : ℝ) : Real.sign x * |x| = x := by
  rcases lt_trichotomy x 0 with h | h | h
  · rw [Real.sign_of_neg h, abs_of_neg h]
    ring
  · subst h
    simp [Real.sign_zero]
  · rw [Real.sign_of_pos h, abs_of_pos h]
    ring

theorem dpan_axis (m : ℝ) (h0 : 0 ≤ m) (h1 : m ≤ 1) :
    dpan m 0 = m * m ^ EXPONENT * (MAX_SPEED * (INTERVAL_MS / 1000)) := by
  unfold dpan gain
  rw [magnitude_axis m h0 h1, real_sign_mul_abs]
  ring

theorem dpan_eq (x y : ℝ) :
    dpan x y = x * (MAX_SPEED * (magnitude x y ^ EXPONENT * (INTERVAL_MS / 1000))) := by
  unfold dpan gain
  rw [real_sign_mul_abs]
  ring

theorem dtilt_eq (x y : ℝ) :
    dtilt x y
      = -(y * (MAX_SPEED * (magnitude x y ^ EXPONENT * (INTERVAL_MS / 1000)))) := by
  unfold dtilt gain
  rw [show -Real.sign y * |y| = -(Real.sign y * |y|) by ring, real_sign_mul_abs]
  ring

theorem axis_delta_bound (a : ℝ) (x y : ℝ) (ha : |a| ≤ 1) :
    |a * (MAX_SPEED * (magnitude x y ^ EXPONENT * (INTERVAL_MS / 1000)))|
      ≤ MAX_SPEED * (INTERVAL_MS / 1000) := by
  have hm0 : (0:ℝ) ≤ magnitude x y := magnitude_nonneg x y
  have hm1 : magnitude x y ≤ 1 := magnitude_le_one x y
  have hE0 : (0:ℝ) ≤ magnitude x y ^ EXPONENT := Real.rpow_nonneg hm0 _
  have hE1 : magnitude x y ^ EXPONENT ≤ 1 :=
    Real.rpow_le_one hm0 hm1 (by norm_num [EXPONENT])
  rw [abs_mul]
  have habs : |MAX_SPEED * (magnitude x y ^ EXPONENT * (INTERVAL_MS / 1000))|
      = MAX_SPEED * (magnitude x y ^ EXPONENT * (INTERVAL_MS / 1000)) := by
    apply abs_of_nonneg
    exact mul_nonneg (by norm_num [MAX_SPEED])
      (mul_nonneg hE0 (by norm_num [INTERVAL_MS]))
  rw [habs]
  have h0a : (0:ℝ) ≤ |a| := abs_nonneg a
  have hprod : |a| * (magnitude x y ^ EXPONENT) ≤ 1 := mul_le_one₀ ha hE0 hE1
  simp only [MAX_SPEED, INTERVAL_MS]
  nlinarith [hprod, mul_nonneg h0a hE0]

/-- Claim C5: along the input axis, the per-tick angular delta of the
VideoPanel drag tick is strictly increasing in the vector magnitude on
(0, 1], and for every admissible input vector (components clamped to
[-1, 1]) each axis delta has magnitude at most
`MAX_SPEED * interval_seconds`. -/
theorem tick_delta_monotone_and_bounded :
    (∀ m₁ m₂ : ℝ, 0 < m₁ → m₁ < m₂ → m₂ ≤ 1 → dpan m₁ 0 < dpan m₂ 0) ∧
    (∀ x y : ℝ, |x| ≤ 1 → |y| ≤ 1 →
      |dpan x y| ≤ MAX_SPEED * (INTERVAL_MS / 1000) ∧
      |dtilt x y| ≤ MAX_SPEED * (INTERVAL_MS / 1000)) := by
  constructor
  · intro m₁ m₂ h0 h12 h1
    have h0le : (0:ℝ) ≤ m₁ := le_of_lt h0
    have h2pos : (0:ℝ) < m₂ := lt_trans h0 h12
    rw [dpan_axis m₁ h0le (le_of_lt (lt_of_lt_of_le h12 h1)),
        dpan_axis m₂ (le_of_lt h2pos) h1]
    have hp : m₁ ^ EXPONENT < m₂ ^ EXPONENT :=
      Real.rpow_lt_rpow h0le h12 (by norm_num [EXPONENT])
    have hx1 : (0:ℝ) < m₁ ^ EXPONENT := Real.rpow_pos_of_pos h0 _
    have hfac : m₁ * m₁ ^ EXPONENT < m₂ * m₂ ^ EXPONENT :=
      mul_lt_mul'' h12 hp h0le (le_of_lt hx1)
    have hc : (0:ℝ) < MAX_SPEED * (INTERVAL_MS / 1000) := by
      norm_num [MAX_SPEED, INTERVAL_MS]
    exact mul_lt_mul_of_pos_right hfac hc
  · intro x y hx hy
    constructor
    · rw [dpan_eq]
      exact axis_delta_bound x x y hx
    · rw [dtilt_eq, abs_neg]
      exact axis_delta_bound y x y hy

theorem tick_delta_monotone_and_bounded_witness :
    ((0:ℝ) < 1/2 ∧ (1/2:ℝ) < 1 ∧ (1:ℝ) ≤ 1 ∧ dpan (1/2) 0 < dpan 1 0) ∧
    (|(1:ℝ)| ≤ 1 ∧ |dpan 1 1| ≤ MAX_SPEED * (INTERVAL_MS / 1000)) := by
  constructor
  · exact ⟨by norm_num, by norm_num, le_refl 1,
      (tick_delta_monotone_and_bounded.1 (1/2) 1 (by norm_num) (by norm_num)
        (le_refl 1))⟩
  · exact ⟨by norm_num,
      (tick_delta_monotone_and_bounded.2 1 1 (by norm_num) (by norm_num)).1⟩

/-- Claim C6 (counterexample): the VideoPanel drag tick has no 0.1 deadzone:
the stored vector (1/20, 0) has magnitude 1/20 < 0.1, yet the tick still
issues a relative-move request. -/
theorem videoPanelTick_ignores_deadzone :
    magnitude (1/20) 0 < 0.1 ∧ videoPanelTick (1/20) 0 ≠ [] := by
  have hmag : magnitude (1/20 : ℝ) 0 = 1/20 :=
    magnitude_axis (1/20) (by norm_num) (by norm_num)
  constructor
  · rw [hmag]
    norm_num
  · unfold videoPanelTick
    rw [if_neg (by norm_num)]
    simp

/-- Claim C6 (amended): the Joystick dispatcher's tick issues no request
whenever the stored vector's magnitude is below the 0.1 deadzone; the
VideoPanel drag tick issues no request exactly when both stored components
are zero (it applies no 0.1 deadzone). -/
theorem tick_deadzone_amended :
    (∀ x y : ℝ, magnitude x y < 0.1 → joystickTick x y = []) ∧
    (∀ x y : ℝ, videoPanelTick x y = [] ↔ (x = 0 ∧ y = 0)) := by
  constructor
  · intro x y h
    unfold joystickTick
    rw [if_pos h]
  · intro x y
    unfold videoPanelTick
    by_cases h : x = 0 ∧ y = 0
    · rw [if_pos h]
      simp [h]
    · rw [if_neg h]
      simp [h]

theorem tick_deadzone_amended_witness :
    magnitude 0 0 < 0.1 ∧ joystickTick 0 0 = [] := by
  have hmag : magnitude (0:ℝ) 0 = 0 := magnitude_axis 0 (le_refl 0) (by norm_num)
  refine ⟨?_, tick_deadzone_amended.1 0 0 ?_⟩
  · rw [hmag]
    norm_num
  · rw [hmag]
    norm_num

/-! ## Monitoring sweep loop (src/unnamed/part_004, lines 199-306)

The sweep effect captures `cancelled` and reads `monitoringRef.current`
out-of-band.  `cancelled` is set on effect cleanup and never reset, and once
`monitoringRef.current` goes false this loop instance never sees it true
again (re-enabling monitoring tears the old instance down first), so the
activity condition `!cancelled && monitoringRef.current` is a
monotonically-falling boolean.  We model its successive reads by a function
`flag : Nat → Bool` indexed by read order; every `safeApply` performs its
own read immediately before the remote call.  All angle arithmetic in the
loop is field arithmetic and comparisons, modelled over ℚ. -/

/-- Cached pan/tilt soft limits captured at sweep start
(part_004 lines 205-206). -/
structure SweepLimits where
  panMin : ℚ
  panMax : ℚ
  tiltMin : ℚ
  tiltMax : ℚ
deriving DecidableEq

/-- `clamp(value, [min, max]) = Math.max(min, Math.min(max, value))`
(part_004 line 208). -/
def clamp (value lo hi : ℚ) : ℚ := max lo (min hi value)

/-- `panLeft = clamp(-60, panLimits)` (part_004 line 211). -/
def panLeft (L : SweepLimits) : ℚ := clamp (-60) L.panMin L.panMax

/-- `panRight = clamp(60, panLimits)` (part_004 line 212). -/
def panRight (L : SweepLimits) : ℚ := clamp 60 L.panMin L.panMax

/-- `tiltTop = clamp(30, tiltLimits)` (part_004 line 213). -/
def tiltTop (L : SweepLimits) : ℚ := clamp 30 L.tiltMin L.tiltMax

/-- `tiltBottom = clamp(-30, tiltLimits)` (part_004 line 214). -/
def tiltBottom (L : SweepLimits) : ℚ := clamp (-30) L.tiltMin L.tiltMax

/-- `Math.abs` on a rational. -/
def jsAbs (q : ℚ) : ℚ := if q < 0 then -q else q

/-- `hasPanRange = Math.abs(panRight - panLeft) > 0.01` (part_004 line 216). -/
def hasPanRange (L : SweepLimits) : Bool := jsAbs (panRight L - panLeft L) > 1/100

/-- `hasTiltRange = Math.abs(tiltTop - tiltBottom) > 0.01` (part_004 line 217). -/
def hasTiltRange (L : SweepLimits) : Bool := jsAbs (tiltTop L - tiltBottom L) > 1/100

/-- Loop state: the index of the next flag read, and the log of issued
absolute-move requests `(read index, pan_deg, tilt_deg)`. -/
structure SweepState where
  checkIdx : Nat
  calls : List (Nat × ℚ × ℚ)
deriving DecidableEq

/-- `safeApply(pan, tilt)` (part_004 lines 224-233): one read of
`cancelled || !monitoringRef.current` immediately before the remote call;
the absolute-move request is issued only when the read says still active. -/
def safeApply (flag : Nat → Bool) (st : SweepState) (pan tilt : ℚ) : SweepState :=
  if flag st.checkIdx then
    ⟨st.checkIdx + 1, st.calls ++ [(st.checkIdx, pan, tilt)]⟩
  else
    ⟨st.checkIdx + 1, st.calls⟩

/-- The inner pan while-loop (part_004 lines 247-262), PAN_STEP = 2: each
iteration re-reads the activity condition, steps `currentPan` toward
`targetPan`, clamps, and calls `safeApply`. -/
def panSweep (flag : Nat → Bool) (L : SweepLimits) (targetPan dir : ℚ) :
    Nat → SweepState → ℚ → ℚ → SweepState × ℚ
  | 0, st, currentPan, _ => (st, currentPan)
  | fuel + 1, st, currentPan, currentTilt =>
      let st1 : SweepState := ⟨st.checkIdx + 1, st.calls⟩
      if flag st.checkIdx then
        if (dir = 1 ∧ currentPan < targetPan) ∨ (dir = -1 ∧ currentPan > targetPan) then
          let p1 := currentPan + dir * 2
          let p2 := if dir = 1 then min p1 targetPan else max p1 targetPan
          let p3 := clamp p2 L.panMin L.panMax
          let st2 := safeApply flag st1 p3 currentTilt
          panSweep flag L targetPan dir fuel st2 p3 currentTilt
        else (st1, currentPan)
      else (st1, currentPan)

/-- The tilt step (part_004 lines 271-295), TILT_STEP = 2: possibly reverse
the tilt direction at an extreme, step, clamp to the target band, and call
`safeApply` when the tilt actually changes.  Returns the state, the new
`currentTilt` and the new `tiltDirection`. -/
def tiltPhase (flag : Nat → Bool) (L : SweepLimits) (st : SweepState)
    (currentPan currentTilt tiltDir : ℚ) : SweepState × ℚ × ℚ :=
  if hasTiltRange L then
    let d1 : ℚ :=
      if tiltDir = -1 ∧ currentTilt ≤ tiltBottom L then 1
      else if tiltDir = 1 ∧ currentTilt ≥ tiltTop L then -1
      else tiltDir
    let n1 := currentTilt + d1 * 2
    let n2 := if d1 = -1 ∧ n1 < tiltBottom L then tiltBottom L else n1
    let n3 := if d1 = 1 ∧ n2 > tiltTop L then tiltTop L else n2
    if n3 ≠ currentTilt then
      let newTilt := clamp n3 L.tiltMin L.tiltMax
      (safeApply flag st currentPan newTilt, newTilt, d1)
    else (st, currentTilt, d1)
  else (st, currentTilt, tiltDir)

/-- The outer `while (!cancelled && monitoringRef.current)` loop (part_004
lines 244-298): pan phase, mid-loop cancellation check (line 267), tilt
phase, then reverse the pan direction. -/
def sweepLoop (flag : Nat → Bool) (L : SweepLimits) :
    Nat → SweepState → ℚ → ℚ → ℚ → ℚ → SweepState
  | 0, st, _, _, _, _ => st
  | fuel + 1, st, currentPan, currentTilt, panDir, tiltDir =>
      if flag st.checkIdx then
        let st1 : SweepState := ⟨st.checkIdx + 1, st.calls⟩
        let ps :=
          if hasPanRange L then
            panSweep flag L (if panDir = 1 then panRight L else panLeft L) panDir
              fuel st1 currentPan currentTilt
          else (st1, currentPan)
        if flag ps.1.checkIdx then
          let st3 : SweepState := ⟨ps.1.checkIdx + 1, ps.1.calls⟩
          let tp := tiltPhase flag L st3 ps.2 currentTilt tiltDir
          sweepLoop flag L fuel tp.1 ps.2 tp.2.1 (-panDir) tp.2.2
        else ⟨ps.1.checkIdx + 1, ps.1.calls⟩
      else ⟨st.checkIdx + 1, st.calls⟩

/-- `cycle()` (part_004 lines 235-301): start at `(panLeft, tiltTop)` with
`panDirection = 1`, `tiltDirection = -1`, issue the initial `safeApply`,
then run the sweep loop. -/
def cycle (flag : Nat → Bool) (L : SweepLimits) (fuel : Nat) : SweepState :=
  let st1 := safeApply flag ⟨0, []⟩ (panLeft L) (tiltTop L)
  sweepLoop flag L fuel st1 (panLeft L) (tiltTop L) 1 (-1)

/-- Every logged call was issued under a `true` read of the activity flag
at its own read index. -/
def Guarded (flag : Nat → Bool) (calls : List (Nat × ℚ × ℚ)) : Prop :=
  ∀ c ∈ calls, flag c.1 = true

theorem guarded_safeApply (flag : Nat → Bool) (st : SweepState) (pan tilt : ℚ)
    (h : Guarded flag st.calls) :
    Guarded flag (safeApply flag st pan tilt).calls := by
  unfold safeApply
  by_cases hf : flag st.checkIdx = true
  · rw [if_pos hf]
    intro c hc
    rcases List.mem_append.1 hc with hl | hr
    · exact h c hl
    · simp only [List.mem_singleton] at hr
      subst hr
      exact hf
  · rw [if_neg hf]
    exact h

theorem guarded_panSweep (flag : Nat → Bool) (L : SweepLimits)
    (targetPan dir : ℚ) :
    ∀ (fuel : Nat) (st : SweepState) (currentPan currentTilt : ℚ),
      Guarded flag st.calls →
      Guarded flag (panSweep flag L targetPan dir fuel st currentPan currentTilt).1.calls := by
  intro fuel
  induction fuel with
  | zero => intro st p t h; exact h
  | succ fuel ih =>
      intro st p t h
      rw [panSweep]
      by_cases hf : flag st.checkIdx = true
      · rw [if_pos hf]
        by_cases hcond : (dir = 1 ∧ p < targetPan) ∨ (dir = -1 ∧ p > targetPan)
        · rw [if_pos hcond]
          exact ih _ _ _ (guarded_safeApply flag ⟨st.checkIdx + 1, st.calls⟩ _ _ h)
        · rw [if_neg hcond]
          exact h
      · rw [if_neg hf]
        exact h

theorem guarded_tiltPhase (flag : Nat → Bool) (L : SweepLimits)
    (st : SweepState) (currentPan currentTilt tiltDir : ℚ)
    (h : Guarded flag st.calls) :
    Guarded flag (tiltPhase flag L st currentPan currentTilt tiltDir).1.calls := by
  unfold tiltPhase
  by_cases ht : hasTiltRange L = true
  · rw [if_pos ht]
    set d1 : ℚ :=
      if tiltDir = -1 ∧ currentTilt ≤ tiltBottom L then 1
      else if tiltDir = 1 ∧ currentTilt ≥ tiltTop L then -1
      else tiltDir with hd1
    set n1 := currentTilt + d1 * 2 with hn1
    set n2 := if d1 = -1 ∧ n1 < tiltBottom L then tiltBottom L else n1 with hn2
    set n3 := if d1 = 1 ∧ n2 > tiltTop L then tiltTop L else n2 with hn3
    by_cases hne : n3 ≠ currentTilt
    · rw [if_pos hne]
      exact guarded_safeApply flag st _ _ h
    · rw [if_neg hne]
      exact h
  · rw [if_neg ht]
    exact h

theorem guarded_sweepLoop (flag : Nat → Bool) (L : SweepLimits) :
    ∀ (fuel : Nat) (st : SweepState) (currentPan currentTilt panDir tiltDir : ℚ),
      Guarded flag st.calls →
      Guarded flag (sweepLoop flag L fuel st currentPan currentTilt panDir tiltDir).calls := by
  intro fuel
  induction fuel with
  | zero => intro st p t pd td h; exact h
  | succ fuel ih =>
      intro st p t pd td h
      rw [sweepLoop]
      by_cases hf : flag st.checkIdx = true
      · rw [if_pos hf]
        have hps : Guarded flag
            ((if hasPanRange L then
                panSweep flag L (if pd = 1 then panRight L else panLeft L) pd
                  fuel ⟨st.checkIdx + 1, st.calls⟩ p t
              else (⟨st.checkIdx + 1, st.calls⟩, p))).1.calls := by
          by_cases hpr : hasPanRange L = true
          · rw [if_pos hpr]
            exact guarded_panSweep flag L _ pd fuel ⟨st.checkIdx + 1, st.calls⟩ p t h
          · rw [if_neg hpr]
            exact h
        by_cases hf2 : flag (if hasPanRange L then
            panSweep flag L (if pd = 1 then panRight L else panLeft L) pd
              fuel ⟨st.checkIdx + 1, st.calls⟩ p t
          else (⟨st.checkIdx + 1, st.calls⟩, p)).1.checkIdx = true
        · rw [if_pos hf2]
          exact ih _ _ _ _ _ (guarded_tiltPhase flag L _ _ _ _ hps)
        · rw [if_neg hf2]
          exact hps
      · rw [if_neg hf]
        exact h

theorem guarded_cycle (flag : Nat → Bool) (L : SweepLimits) (fuel : Nat) :
    Guarded flag (cycle flag L fuel).calls := by
  unfold cycle
  apply guarded_sweepLoop
  apply guarded_safeApply
  intro c hc
  cases hc

/-- Claim C1: every absolute-move request issued by the sweep loop is
preceded by its own fresh read of the out-of-band activity condition
`!cancelled && monitoringRef.current`, and is issued only when that read is
`true`; hence once the condition has gone (and stays) false from read `N`
onward, the loop issues zero further absolute-move requests: every logged
call's read index is below `N`. -/
theorem sweep_stops_after_cancellation (flag : Nat → Bool) (L : SweepLimits)
    (fuel N : Nat) (hoff : ∀ n, N ≤ n → flag n = false) :
    ∀ c ∈ (cycle flag L fuel).calls, flag c.1 = true ∧ c.1 < N := by
  intro c hc
  have hg : flag c.1 = true := guarded_cycle flag L fuel c hc
  refine ⟨hg, ?_⟩
  by_contra hlt
  push_neg at hlt
  rw [hoff c.1 hlt] at hg
  cases hg

theorem safeApply_calls_extend (flag : Nat → Bool) (st : SweepState)
    (pan tilt : ℚ) :
    ∃ l, (safeApply flag st pan tilt).calls = st.calls ++ l := by
  unfold safeApply
  by_cases hf : flag st.checkIdx = true
  · rw [if_pos hf]
    exact ⟨[(st.checkIdx, pan, tilt)], rfl⟩
  · rw [if_neg hf]
    exact ⟨[], by simp⟩

theorem panSweep_calls_extend (flag : Nat → Bool) (L : SweepLimits)
    (targetPan dir : ℚ) :
    ∀ (fuel : Nat) (st : SweepState) (currentPan currentTilt : ℚ),
      ∃ l, (panSweep flag L targetPan dir fuel st currentPan currentTilt).1.calls
        = st.calls ++ l := by
  intro fuel
  induction fuel with
  | zero =>
      intro st p t
      exact ⟨[], by simp [panSweep]⟩
  | succ fuel ih =>
      intro st p t
      rw [panSweep]
      by_cases hf : flag st.checkIdx = true
      · rw [if_pos hf]
        by_cases hcond : (dir = 1 ∧ p < targetPan) ∨ (dir = -1 ∧ p > targetPan)
        · rw [if_pos hcond]
          obtain ⟨l1, hl1⟩ := safeApply_calls_extend flag ⟨st.checkIdx + 1, st.calls⟩
            (clamp (if dir = 1 then min (p + dir * 2) targetPan
                    else max (p + dir * 2) targetPan) L.panMin L.panMax) t
          obtain ⟨l2, hl2⟩ := ih (safeApply flag ⟨st.checkIdx + 1, st.calls⟩
            (clamp (if dir = 1 then min (p + dir * 2) targetPan
                    else max (p + dir * 2) targetPan) L.panMin L.panMax) t)
            (clamp (if dir = 1 then min (p + dir * 2) targetPan
                    else max (p + dir * 2) targetPan) L.panMin L.panMax) t
          refine ⟨l1 ++ l2, ?_⟩
          rw [hl2, hl1]
          simp [List.append_assoc]
        · rw [if_neg hcond]
          exact ⟨[], by simp⟩
      · rw [if_neg hf]
        exact ⟨[], by simp⟩

theorem tiltPhase_calls_extend (flag : Nat → Bool) (L : SweepLimits)
    (st : SweepState) (currentPan currentTilt tiltDir : ℚ) :
    ∃ l, (tiltPhase flag L st currentPan currentTilt tiltDir).1.calls
      = st.calls ++ l := by
  unfold tiltPhase
  by_cases ht : hasTiltRange L = true
  · rw [if_pos ht]
    set d1 : ℚ :=
      if tiltDir = -1 ∧ currentTilt ≤ tiltBottom L then 1
      else if tiltDir = 1 ∧ currentTilt ≥ tiltTop L then -1
      else tiltDir with hd1
    set n1 := currentTilt + d1 * 2 with hn1
    set n2 := if d1 = -1 ∧ n1 < tiltBottom L then tiltBottom L else n1 with hn2
    set n3 := if d1 = 1 ∧ n2 > tiltTop L then tiltTop L else n2 with hn3
    by_cases hne : n3 ≠ currentTilt
    · rw [if_pos hne]
      exact safeApply_calls_extend flag st currentPan (clamp n3 L.tiltMin L.tiltMax)
    · rw [if_neg hne]
      exact ⟨[], by simp⟩
  · rw [if_neg ht]
    exact ⟨[], by simp⟩

theorem sweepLoop_calls_extend (flag : Nat → Bool) (L : SweepLimits) :
    ∀ (fuel : Nat) (st : SweepState) (currentPan currentTilt panDir tiltDir : ℚ),
      ∃ l, (sweepLoop flag L fuel st currentPan currentTilt panDir tiltDir).calls
        = st.calls ++ l := by
  intro fuel
  induction fuel with
  | zero =>
      intro st p t pd td
      exact ⟨[], by simp [sweepLoop]⟩
  | succ fuel ih =>
      intro st p t pd td
      rw [sweepLoop]
      by_cases hf : flag st.checkIdx = true
      · rw [if_pos hf]
        have hps : ∃ l, ((if hasPanRange L then
            panSweep flag L (if pd = 1 then panRight L else panLeft L) pd
              fuel ⟨st.checkIdx + 1, st.calls⟩ p t
          else (⟨st.checkIdx + 1, st.calls⟩, p))).1.calls = st.calls ++ l := by
          by_cases hpr : hasPanRange L = true
          · rw [if_pos hpr]
            exact panSweep_calls_extend flag L _ pd fuel ⟨st.checkIdx + 1, st.calls⟩ p t
          · rw [if_neg hpr]
            exact ⟨[], by simp⟩
        obtain ⟨l1, hl1⟩ := hps
        by_cases hf2 : flag (if hasPanRange L then
            panSweep flag L (if pd = 1 then panRight L else panLeft L) pd
              fuel ⟨st.checkIdx + 1, st.calls⟩ p t
          else (⟨st.checkIdx + 1, st.calls⟩, p)).1.checkIdx = true
        · rw [if_pos hf2]
          obtain ⟨l2, hl2⟩ := tiltPhase_calls_extend flag L
            ⟨(if hasPanRange L then
                panSweep flag L (if pd = 1 then panRight L else panLeft L) pd
                  fuel ⟨st.checkIdx + 1, st.calls⟩ p t
              else (⟨st.checkIdx + 1, st.calls⟩, p)).1.checkIdx + 1,
              (if hasPanRange L then
                panSweep flag L (if pd = 1 then panRight L else panLeft L) pd
                  fuel ⟨st.checkIdx + 1, st.calls⟩ p t
              else (⟨st.checkIdx + 1, st.calls⟩, p)).1.calls⟩
            (if hasPanRange L then
                panSweep flag L (if pd = 1 then panRight L else panLeft L) pd
                  fuel ⟨st.checkIdx + 1, st.calls⟩ p t
              else (⟨st.checkIdx + 1, st.calls⟩, p)).2 t td
          obtain ⟨l3, hl3⟩ := ih _ (if hasPanRange L then
                panSweep flag L (if pd = 1 then panRight L else panLeft L) pd
                  fuel ⟨st.checkIdx + 1, st.calls⟩ p t
              else (⟨st.checkIdx + 1, st.calls⟩, p)).2 _ (-pd) _
          refine ⟨l1 ++ (l2 ++ l3), ?_⟩
          rw [hl3, hl2]
          simp only [hl1]
          simp [List.append_assoc]
        · rw [if_neg hf2]
          exact ⟨l1, by simpa using hl1⟩
      · rw [if_neg hf]
        exact ⟨[], by simp⟩

theorem cycle_head (flag : Nat → Bool) (L : SweepLimits) (fuel : Nat)
    (h0 : flag 0 = true) :
    (cycle flag L fuel).calls.head? = some (0, panLeft L, tiltTop L) := by
  unfold cycle
  have hst1 : (safeApply flag ⟨0, []⟩ (panLeft L) (tiltTop L)).calls
      = [(0, panLeft L, tiltTop L)] := by
    unfold safeApply
    rw [if_pos h0]
    rfl
  obtain ⟨l, hl⟩ := sweepLoop_calls_extend flag L fuel
    (safeApply flag ⟨0, []⟩ (panLeft L) (tiltTop L)) (panLeft L) (tiltTop L) 1 (-1)
  rw [hl, hst1]
  rfl

theorem sweep_stops_after_cancellation_witness :
    ((0, (-60 : ℚ), (30 : ℚ)) ∈
        (cycle (fun n => decide (n < 3)) ⟨-90, 90, -30, 30⟩ 0).calls) ∧
    ((fun n => decide (n < 3)) 0 = true ∧ 0 < 3) :=
  ⟨by decide,
   sweep_stops_after_cancellation (fun n => decide (n < 3)) ⟨-90, 90, -30, 30⟩
     0 3 (fun n hn => decide_eq_false (by omega)) (0, -60, 30) (by decide)⟩

/-- Claim C4: at sweep start the plan is `panLeft = clamp(-60, pan limits)`,
`panRight = clamp(60, pan limits)`, `tiltTop = clamp(30, tilt limits)`,
`tiltBottom = clamp(-30, tilt limits)`, and (while still active) the first
absolute-move request targets `(panLeft, tiltTop)`; with limits
`pan = [-90, 90], tilt = [-30, 30]` the plan is `(-60, 60, 30, -30)` and the
first call is `(pan_deg = -60, tilt_deg = 30)`; with limits `pan = [-40, 40]`
the plan clamps to `panLeft = -40, panRight = 40`. -/
theorem sweep_plan_and_first_call (flag : Nat → Bool) (L : SweepLimits)
    (fuel : Nat) (h0 : flag 0 = true) :
    (panLeft L = clamp (-60) L.panMin L.panMax ∧
     panRight L = clamp 60 L.panMin L.panMax ∧
     tiltTop L = clamp 30 L.tiltMin L.tiltMax ∧
     tiltBottom L = clamp (-30) L.tiltMin L.tiltMax) ∧
    (cycle flag L fuel).calls.head? = some (0, panLeft L, tiltTop L) ∧
    (panLeft ⟨-90, 90, -30, 30⟩ = -60 ∧ panRight ⟨-90, 90, -30, 30⟩ = 60 ∧
     tiltTop ⟨-90, 90, -30, 30⟩ = 30 ∧ tiltBottom ⟨-90, 90, -30, 30⟩ = -30 ∧
     (cycle (fun _ => true) ⟨-90, 90, -30, 30⟩ 0).calls.head?
       = some (0, -60, 30)) ∧
    (panLeft ⟨-40, 40, -30, 30⟩ = -40 ∧ panRight ⟨-40, 40, -30, 30⟩ = 40) := by
  refine ⟨⟨rfl, rfl, rfl, rfl⟩, cycle_head flag L fuel h0, ?_, by decide⟩
  refine ⟨by decide, by decide, by decide, by decide, ?_⟩
  have h := cycle_head (fun _ => true) ⟨-90, 90, -30, 30⟩ 0 rfl
  rw [h]
  decide

theorem sweep_plan_and_first_call_witness :
    ((fun _ : Nat => true) 0 = true) ∧
    (cycle (fun _ => true) ⟨-90, 90, -30, 30⟩ 0).calls.head?
      = some (0, panLeft ⟨-90, 90, -30, 30⟩, tiltTop ⟨-90, 90, -30, 30⟩) :=
  ⟨rfl,
   (sweep_plan_and_first_call (fun _ => true) ⟨-90, 90, -30, 30⟩ 0 rfl).2.1⟩

/-- The pan/tilt target lies within the cached soft limits. -/
def WithinLimits (L : SweepLimits) (pan tilt : ℚ) : Prop :=
  L.panMin ≤ pan ∧ pan ≤ L.panMax ∧ L.tiltMin ≤ tilt ∧ tilt ≤ L.tiltMax

instance (L : SweepLimits) (pan tilt : ℚ) : Decidable (WithinLimits L pan tilt) :=
  inferInstanceAs (Decidable (_ ∧ _ ∧ _ ∧ _))

theorem clamp_mem (v lo hi : ℚ) (h : lo ≤ hi) :
    lo ≤ clamp v lo hi ∧ clamp v lo hi ≤ hi :=
  ⟨le_max_left _ _, max_le h (min_le_left _ _)⟩

theorem within_safeApply (flag : Nat → Bool) (L : SweepLimits)
    (st : SweepState) (pan tilt : ℚ)
    (hst : ∀ c ∈ st.calls, WithinLimits L c.2.1 c.2.2)
    (hnew : WithinLimits L pan tilt) :
    ∀ c ∈ (safeApply flag st pan tilt).calls, WithinLimits L c.2.1 c.2.2 := by
  unfold safeApply
  by_cases hf : flag st.checkIdx = true
  · rw [if_pos hf]
    intro c hc
    rcases List.mem_append.1 hc with hl | hr
    · exact hst c hl
    · simp only [List.mem_singleton] at hr
      subst hr
      exact hnew
  · rw [if_neg hf]
    exact hst

theorem panSweep_within (flag : Nat → Bool) (L : SweepLimits)
    (targetPan dir : ℚ) (hP : L.panMin ≤ L.panMax) :
    ∀ (fuel : Nat) (st : SweepState) (currentPan currentTilt : ℚ),
      (∀ c ∈ st.calls, WithinLimits L c.2.1 c.2.2) →
      L.panMin ≤ currentPan → currentPan ≤ L.panMax →
      L.tiltMin ≤ currentTilt → currentTilt ≤ L.tiltMax →
      (∀ c ∈ (panSweep flag L targetPan dir fuel st currentPan currentTilt).1.calls,
        WithinLimits L c.2.1 c.2.2) ∧
      L.panMin ≤ (panSweep flag L targetPan dir fuel st currentPan currentTilt).2 ∧
      (panSweep flag L targetPan dir fuel st currentPan currentTilt).2 ≤ L.panMax := by
  intro fuel
  induction fuel with
  | zero =>
      intro st p t hst hp1 hp2 ht1 ht2
      exact ⟨hst, hp1, hp2⟩
  | succ fuel ih =>
      intro st p t hst hp1 hp2 ht1 ht2
      rw [panSweep]
      by_cases hf : flag st.checkIdx = true
      · rw [if_pos hf]
        by_cases hcond : (dir = 1 ∧ p < targetPan) ∨ (dir = -1 ∧ p > targetPan)
        · rw [if_pos hcond]
          have hcl := clamp_mem (if dir = 1 then min (p + dir * 2) targetPan
            else max (p + dir * 2) targetPan) L.panMin L.panMax hP
          exact ih _ _ t
            (within_safeApply flag L ⟨st.checkIdx + 1, st.calls⟩ _ t hst
              ⟨hcl.1, hcl.2, ht1, ht2⟩)
            hcl.1 hcl.2 ht1 ht2
        · rw [if_neg hcond]
          exact ⟨hst, hp1, hp2⟩
      · rw [if_neg hf]
        exact ⟨hst, hp1, hp2⟩

theorem tiltPhase_within (flag : Nat → Bool) (L : SweepLimits)
    (st : SweepState) (currentPan currentTilt tiltDir : ℚ)
    (hT : L.tiltMin ≤ L.tiltMax)
    (hst : ∀ c ∈ st.calls, WithinLimits L c.2.1 c.2.2)
    (hp1 : L.panMin ≤ currentPan) (hp2 : currentPan ≤ L.panMax)
    (ht1 : L.tiltMin ≤ currentTilt) (ht2 : currentTilt ≤ L.tiltMax) :
    (∀ c ∈ (tiltPhase flag L st currentPan currentTilt tiltDir).1.calls,
      WithinLimits L c.2.1 c.2.2) ∧
    L.tiltMin ≤ (tiltPhase flag L st currentPan currentTilt tiltDir).2.1 ∧
    (tiltPhase flag L st currentPan currentTilt tiltDir).2.1 ≤ L.tiltMax := by
  unfold tiltPhase
  by_cases hr : hasTiltRange L = true
  · rw [if_pos hr]
    set d1 : ℚ :=
      if tiltDir = -1 ∧ currentTilt ≤ tiltBottom L then 1
      else if tiltDir = 1 ∧ currentTilt ≥ tiltTop L then -1
      else tiltDir with hd1
    set n1 := currentTilt + d1 * 2 with hn1
    set n2 := if d1 = -1 ∧ n1 < tiltBottom L then tiltBottom L else n1 with hn2
    set n3 := if d1 = 1 ∧ n2 > tiltTop L then tiltTop L else n2 with hn3
    by_cases hne : n3 ≠ currentTilt
    · rw [if_pos hne]
      have hcl := clamp_mem n3 L.tiltMin L.tiltMax hT
      exact ⟨within_safeApply flag L st _ _ hst ⟨hp1, hp2, hcl.1, hcl.2⟩,
        hcl.1, hcl.2⟩
    · rw [if_neg hne]
      exact ⟨hst, ht1, ht2⟩
  · rw [if_neg hr]
    exact ⟨hst, ht1, ht2⟩

theorem sweepLoop_within (flag : Nat → Bool) (L : SweepLimits)
    (hP : L.panMin ≤ L.panMax) (hT : L.tiltMin ≤ L.tiltMax) :
    ∀ (fuel : Nat) (st : SweepState) (currentPan currentTilt panDir tiltDir : ℚ),
      (∀ c ∈ st.calls, WithinLimits L c.2.1 c.2.2) →
      L.panMin ≤ currentPan → currentPan ≤ L.panMax →
      L.tiltMin ≤ currentTilt → currentTilt ≤ L.tiltMax →
      ∀ c ∈ (sweepLoop flag L fuel st currentPan currentTilt panDir tiltDir).calls,
        WithinLimits L c.2.1 c.2.2 := by
  intro fuel
  induction fuel with
  | zero =>
      intro st p t pd td hst hp1 hp2 ht1 ht2
      exact hst
  | succ fuel ih =>
      intro st p t pd td hst hp1 hp2 ht1 ht2
      rw [sweepLoop]
      by_cases hf : flag st.checkIdx = true
      · rw [if_pos hf]
        have hps : (∀ c ∈ ((if hasPanRange L then
              panSweep flag L (if pd = 1 then panRight L else panLeft L) pd
                fuel ⟨st.checkIdx + 1, st.calls⟩ p t
            else (⟨st.checkIdx + 1, st.calls⟩, p))).1.calls,
              WithinLimits L c.2.1 c.2.2) ∧
            L.panMin ≤ ((if hasPanRange L then
              panSweep flag L (if pd = 1 then panRight L else panLeft L) pd
                fuel ⟨st.checkIdx + 1, st.calls⟩ p t
            else (⟨st.checkIdx + 1, st.calls⟩, p))).2 ∧
            ((if hasPanRange L then
              panSweep flag L (if pd = 1 then panRight L else panLeft L) pd
                fuel ⟨st.checkIdx + 1, st.calls⟩ p t
            else (⟨st.checkIdx + 1, st.calls⟩, p))).2 ≤ L.panMax := by
          by_cases hpr : hasPanRange L = true
          · rw [if_pos hpr]
            exact panSweep_within flag L _ pd hP fuel ⟨st.checkIdx + 1, st.calls⟩
              p t hst hp1 hp2 ht1 ht2
          · rw [if_neg hpr]
            exact ⟨hst, hp1, hp2⟩
        by_cases hf2 : flag (if hasPanRange L then
            panSweep flag L (if pd = 1 then panRight L else panLeft L) pd
              fuel ⟨st.checkIdx + 1, st.calls⟩ p t
          else (⟨st.checkIdx + 1, st.calls⟩, p)).1.checkIdx = true
        · rw [if_pos hf2]
          have htp := tiltPhase_within flag L
            ⟨(if hasPanRange L then
                panSweep flag L (if pd = 1 then panRight L else panLeft L) pd
                  fuel ⟨st.checkIdx + 1, st.calls⟩ p t
              else (⟨st.checkIdx + 1, st.calls⟩, p)).1.checkIdx + 1,
              (if hasPanRange L then
                panSweep flag L (if pd = 1 then panRight L else panLeft L) pd
                  fuel ⟨st.checkIdx + 1, st.calls⟩ p t
              else (⟨st.checkIdx + 1, st.calls⟩, p)).1.calls⟩
            (if hasPanRange L then
                panSweep flag L (if pd = 1 then panRight L else panLeft L) pd
                  fuel ⟨st.checkIdx + 1, st.calls⟩ p t
              else (⟨st.checkIdx + 1, st.calls⟩, p)).2 t td hT
            hps.1 hps.2.1 hps.2.2 ht1 ht2
          exact ih _ _ _ (-pd) _ htp.1 hps.2.1 hps.2.2 htp.2.1 htp.2.2
        · rw [if_neg hf2]
          exact hps.1
      · rw [if_neg hf]
        exact hst

/-- Claim C7 (amended): the monitoring sweep clamps every target against
the cached limits before sending, so with well-formed cached limits every
absolute-move request the sweep issues lies within them; the manual
absolute-move form (Controls.jsx `handleAbsoluteSubmit`) and the relative
moves (`applyRelative`) are sent without client-side clamping. -/
theorem sweep_requests_clamped (flag : Nat → Bool) (L : SweepLimits)
    (fuel : Nat) (hP : L.panMin ≤ L.panMax) (hT : L.tiltMin ≤ L.tiltMax) :
    ∀ c ∈ (cycle flag L fuel).calls, WithinLimits L c.2.1 c.2.2 := by
  unfold cycle
  have hpl := clamp_mem (-60) L.panMin L.panMax hP
  have htt := clamp_mem 30 L.tiltMin L.tiltMax hT
  apply sweepLoop_within flag L hP hT fuel _ _ _ 1 (-1)
  · apply within_safeApply flag L ⟨0, []⟩ _ _ ?_ ⟨hpl.1, hpl.2, htt.1, htt.2⟩
    intro c hc
    cases hc
  · exact hpl.1
  · exact hpl.2
  · exact htt.1
  · exact htt.2

theorem sweep_requests_clamped_witness :
    ((-90 : ℚ) ≤ 90 ∧ (-30 : ℚ) ≤ 30) ∧
    WithinLimits ⟨-90, 90, -30, 30⟩ (-60) 30 :=
  ⟨by decide,
   sweep_requests_clamped (fun _ => true) ⟨-90, 90, -30, 30⟩ 0
     (by decide) (by decide) (0, -60, 30) (by decide)⟩

/-- The absolute-move form submit of Controls.jsx (lines 86-89): the typed
pan/tilt component state is sent as-is, with no clamping against the cached
limits. -/
def handleAbsoluteSubmit (pan tilt : ℚ) : ℚ × ℚ := (pan, tilt)

/-- The keyboard/relative-move payload (part_004 lines 320-331 feeding
`applyRelative`, lines 159-166): the delta is sent as-is. -/
def applyRelativePayload (dpanDeg dtiltDeg : ℚ) : ℚ × ℚ := (dpanDeg, dtiltDeg)

/-- What the spec's words describe for comparison: an absolute submit whose
intended target is clamped against the last-known limits before sending. -/
def clampedSubmitSpec (L : SweepLimits) (pan tilt : ℚ) : ℚ × ℚ :=
  (clamp pan L.panMin L.panMax, clamp tilt L.tiltMin L.tiltMax)

/-- Claim C7 (counterexample): with the default cached limits
`pan = [-90, 90], tilt = [-70, 70]`, submitting the absolute-move form with
`pan = 120` sends the target unclamped: the outbound request differs from
the spec-described clamped request and targets a position outside the
last-known limits. -/
theorem absolute_submit_not_clamped :
    ¬ WithinLimits ⟨-90, 90, -70, 70⟩ (handleAbsoluteSubmit 120 10).1
        (handleAbsoluteSubmit 120 10).2 ∧
    handleAbsoluteSubmit 120 10 ≠ clampedSubmitSpec ⟨-90, 90, -70, 70⟩ 120 10 := by
  decide

end XEye
